import Mathlib

/-!
Verification of the correlation / clustering engine of the time-entry
generator (source: `evidence_database.py`, classes `EvidenceDatabase` and
`TimelineConstructor`).

The engine is shallowly embedded: evidence records loaded from the store
are modelled as a list of `Record` values (the JSON written by
`insert_evidence_items` always contains a `timestamp` key, possibly null,
so the timestamp is an `Option String`; the other optional JSON fields are
likewise `Option String`, where `none` models an absent key and Python
truthiness of a present value is an extra check).  Relationship rows are
`Edge` values; the relationship table is a list (duplicates allowed, as in
the SQLite table).  Each heuristic of `identify_relationships` is
translated into a pure function producing, in program order, the edges the
Python code passes to `link_related_evidence`.

Numeric model: confidences are exact rationals (`ℚ`); Python floats are
modelled exactly, writing the source's decimal literals.  Timestamps are
parsed by `parseTs`, a model of `pd.to_datetime` restricted to the
canonical `YYYY-MM-DDTHH:MM:SS` strings produced by
`insert_evidence_items` (`datetime.isoformat`); it returns seconds on a
linear time axis (days via the standard civil-calendar formula), so time
differences in seconds are exact, and returns `none` on any other input,
modelling the `try/except` in `_parse_timestamp`.
-/

/-- ASCII whitespace recognised by Python's `str.strip()`. -/
def isSpace (c : Char) : Bool :=
  c == ' ' || c == '\t' || c == '\n' || c == '\r' || c == '\x0b' || c == '\x0c'

/-- Model of Python `str.strip()` on a character list. -/
def pyStripL (l : List Char) : List Char :=
  ((l.dropWhile isSpace).reverse.dropWhile isSpace).reverse

/-- Model of Python `str.strip()`. -/
def pyStripS (s : String) : String :=
  ⟨pyStripL s.data⟩

/-- Model of Python `str.lower()` (the engine only meets ASCII text). -/
def lowerS (s : String) : String :=
  ⟨s.data.map Char.toLower⟩

/-- Model of Python `str.startswith` on character lists. -/
def startsW : List Char → List Char → Bool
  | [], _ => true
  | _ :: _, [] => false
  | c :: p, d :: s => c == d && startsW p s

/-- Model of the Python substring test `needle in hay`. -/
def containsSub (n : List Char) : List Char → Bool
  | [] => n.isEmpty
  | c :: s => startsW n (c :: s) || containsSub n s

/-- Model of Python `str.split()` (split on whitespace runs, no empty
tokens); `acc` holds the reversed current token. -/
def wsplitGo : List Char → List Char → List (List Char)
  | [], acc => if acc.isEmpty then [] else [acc.reverse]
  | c :: r, acc =>
    if isSpace c then
      (if acc.isEmpty then wsplitGo r [] else acc.reverse :: wsplitGo r [])
    else wsplitGo r (c :: acc)

/-- Whitespace-token list of a string, as in `references.split()`. -/
def tokens (s : String) : List String :=
  (wsplitGo s.data []).map (fun l => ⟨l⟩)

/-- Code-point comparison of character lists: the order Python uses when
`sorted` compares `str` keys. -/
def chLe : List Char → List Char → Bool
  | [], _ => true
  | _ :: _, [] => false
  | c :: a, d :: b =>
    if c.toNat < d.toNat then true
    else if d.toNat < c.toNat then false
    else chLe a b

/-- One `while normalized.startswith(prefix)` loop of
`_normalize_email_subject`, run with enough fuel (each iteration of the
Python loop strictly shortens the string, so `s.length + 1` steps always
reach the fixed point). -/
def stripFuel (p : List Char) : Nat → List Char → List Char
  | 0, s => s
  | fuel + 1, s =>
    if startsW p s then stripFuel p fuel (pyStripL (s.drop p.length)) else s

/-- Fixed point of stripping one leading marker, as the Python `while`. -/
def strip1 (p s : List Char) : List Char :=
  stripFuel p (s.length + 1) s

/-- The marker list of `_normalize_email_subject`, in source order. -/
def subjMarkers : List (List Char) :=
  ["re:".data, "fwd:".data, "fw:".data, "response:".data]

/-- Model of `_normalize_email_subject`: lower-case, then one pass over
the marker list, each marker stripped repeatedly. -/
def normSubjL (l : List Char) : List Char :=
  subjMarkers.foldl (fun s p => strip1 p s) (l.map Char.toLower)

/-- String form of `_normalize_email_subject`. -/
def normSubj (s : String) : String :=
  ⟨normSubjL s.data⟩

/-- Decimal digit test. -/
def isDig (c : Char) : Bool :=
  '0' ≤ c && c ≤ '9'

/-- Digit value. -/
def dv (c : Char) : Nat :=
  c.toNat - 48

/-- Days of the proleptic Gregorian calendar (civil-calendar formula),
counted from an arbitrary fixed origin; differences between two dates in
the engine's range are exact day counts. -/
def epochDays (y mo d : Nat) : Nat :=
  let y' := if mo ≤ 2 then y - 1 else y
  let era := y' / 400
  let yoe := y' % 400
  let mp := (mo + 9) % 12
  let doy := (153 * mp + 2) / 5 + (d - 1)
  let doe := yoe * 365 + yoe / 4 - yoe / 100 + doy
  era * 146097 + doe

/-- Seconds on the linear time axis. -/
def epochSecs (y mo d h mi s : Nat) : Nat :=
  epochDays y mo d * 86400 + h * 3600 + mi * 60 + s

/-- Model of `_parse_timestamp` on a present string: `pd.to_datetime`
succeeds on the canonical `YYYY-MM-DDTHH:MM:SS` form written by
`insert_evidence_items`, and the surrounding `try/except` turns every
parse failure into `None` (never an exception). -/
def parseTs (s : String) : Option Nat :=
  match s.data with
  | [y1, y2, y3, y4, '-', a1, a2, '-', d1, d2, 'T', h1, h2, ':', m1, m2, ':', s1, s2] =>
    if isDig y1 && isDig y2 && isDig y3 && isDig y4 && isDig a1 && isDig a2 &&
        isDig d1 && isDig d2 && isDig h1 && isDig h2 && isDig m1 && isDig m2 &&
        isDig s1 && isDig s2 then
      let y := dv y1 * 1000 + dv y2 * 100 + dv y3 * 10 + dv y4
      let mo := dv a1 * 10 + dv a2
      let d := dv d1 * 10 + dv d2
      let h := dv h1 * 10 + dv h2
      let mi := dv m1 * 10 + dv m2
      let se := dv s1 * 10 + dv s2
      if 1 ≤ mo && mo ≤ 12 && 1 ≤ d && d ≤ 31 && h ≤ 23 && mi ≤ 59 && se ≤ 59 then
        some (epochSecs y mo d h mi se)
      else none
    else none
  | _ => none

/-- `_parse_timestamp` including the falsy-input guard (`None` and the
empty string both return `None`). -/
def parseTsO : Option String → Option Nat
  | none => none
  | some s => parseTs s

/-- One evidence record as loaded from the store (`json.loads` of the
`data` column).  `insert_evidence_items` always writes the `timestamp`
key (possibly null); the remaining fields model the type-specific JSON
keys, `none` standing for an absent key. -/
structure Record where
  id : String
  type : String
  timestamp : Option String := none
  message_id : Option String := none
  in_reply_to : Option String := none
  references : Option String := none
  conversation_id : Option String := none
  subject : Option String := none
  body : Option String := none
  text : Option String := none
  chat_session : Option String := none
  event_type : Option String := none
  memo : Option String := none
deriving DecidableEq, Repr

/-- One row of `evidence_relationships` as written by
`link_related_evidence` (the uuid primary key and `created_at` carry no
information the engine reads back). -/
structure Edge where
  id1 : String
  id2 : String
  rtype : String
  conf : ℚ
deriving DecidableEq, Repr

/-- The store state the engine touches: the `evidence` rows (in the
order `query_evidence` returns them) and the `evidence_relationships`
rows in insertion order. -/
structure Store where
  records : List Record
  edges : List Edge
deriving DecidableEq, Repr

/-- `dict.get(k, '')`-style read of an optional field. -/
def getStr (o : Option String) : String :=
  o.getD ""

/-- Python truthiness of `'k' in item and item['k']` for a string field:
the key is present and its value is non-empty. -/
def truthy (o : Option String) : Bool :=
  !(getStr o == "")

/-- The `email_by_message_id` mapping of `identify_relationships`:
the dict is built in evidence order with later entries overwriting
earlier ones, so a lookup returns the last email (with a truthy
`message_id`) whose id equals the key. -/
def emailByMessageId (evs : List Record) (k : String) : Option Record :=
  ((evs.filter (fun r => r.type == "email" && truthy r.message_id)).reverse).find?
    (fun r => getStr r.message_id == k)

/-- The `email_by_subject[ns]` group: emails with a truthy subject whose
normalized subject is `ns`, in evidence order. -/
def subjGroup (evs : List Record) (ns : String) : List Record :=
  evs.filter
    (fun r => r.type == "email" && truthy r.subject && normSubj (getStr r.subject) == ns)

/-- Reply-chain linking for one email (`in_reply_to` resolved through
`email_by_message_id`); note the source never compares the resolved
parent's id with the item's own id. -/
def replyEdges (evs : List Record) (item : Record) : List Edge :=
  if truthy item.in_reply_to then
    match emailByMessageId evs (getStr item.in_reply_to) with
    | some parent => [⟨parent.id, item.id, "reply_to", 1⟩]
    | none => []
  else []

/-- Reference-chain linking for one email: each whitespace token of
`references` that resolves yields an edge. -/
def refEdges (evs : List Record) (item : Record) : List Edge :=
  if truthy item.references then
    (tokens (getStr item.references)).filterMap
      (fun k => (emailByMessageId evs k).map
        (fun ref => (⟨ref.id, item.id, "reference", 0.9⟩ : Edge)))
  else []

/-- Conversation linking for one email: every other email whose
(present) `conversation_id` equals this one's.  The source's
`'conversation_id' in other` key-presence test is subsumed by the
`Option` equality, since `item.conversation_id` is a present, truthy
value in the guarded branch. -/
def convEdges (evs : List Record) (item : Record) : List Edge :=
  if truthy item.conversation_id then
    (evs.filter
        (fun o => o.id != item.id && o.type == "email" &&
          o.conversation_id == item.conversation_id)).map
      (fun o => (⟨item.id, o.id, "conversation", 0.9⟩ : Edge))
  else []

/-- `_calculate_time_difference`: absolute difference of the two parsed
timestamps in days, `none` when either fails to parse. -/
def timeDiffDays (a b : Record) : Option ℚ :=
  match parseTsO a.timestamp, parseTsO b.timestamp with
  | some t1, some t2 => some (|(t1 : ℚ) - (t2 : ℚ)| / (24 * 3600))
  | _, _ => none

/-- Subject linking for one email: others in the same normalized-subject
group, linked when the day difference is known and below 7 and the
confidence `max(0.5, 1 - diff/7)` reaches the threshold. -/
def subjEdges (th : ℚ) (evs : List Record) (item : Record) : List Edge :=
  if truthy item.subject then
    (subjGroup evs (normSubj (getStr item.subject))).filterMap
      (fun o =>
        if o.id != item.id then
          match timeDiffDays item o with
          | some d =>
            if d < 7 then
              if th ≤ max 0.5 (1 - d / 7) then
                some ⟨item.id, o.id, "subject", max 0.5 (1 - d / 7)⟩
              else none
            else none
          | none => none
        else none)
  else []

/-- The first, per-email phase of `identify_relationships`: for each
email in evidence order, reply, reference, conversation and subject
edges, in source order. -/
def emailAttempts (th : ℚ) (evs : List Record) : List Edge :=
  evs.flatMap
    (fun item =>
      if item.type == "email" then
        replyEdges evs item ++ refEdges evs item ++ convEdges evs item ++
          subjEdges th evs item
      else [])

/-- First-appearance deduplication, as Python dict-key insertion order. -/
def firstKeys : List String → List String → List String
  | _, [] => []
  | seen, k :: r =>
    if seen.contains k then firstKeys seen r else k :: firstKeys (k :: seen) r

/-- The keys of `sms_by_session` in insertion order. -/
def sessionKeys (evs : List Record) : List String :=
  firstKeys []
    ((evs.filter (fun r => r.type == "sms" && truthy r.chat_session)).map
      (fun r => getStr r.chat_session))

/-- The `sms_by_session[k]` group, in evidence order. -/
def sessionMsgs (evs : List Record) (k : String) : List Record :=
  evs.filter
    (fun r => r.type == "sms" && truthy r.chat_session && getStr r.chat_session == k)

/-- The sort key `x.get('timestamp', '')` of the chat-sequencing sort
(the stored value when present, `''` otherwise). -/
def smsKey (r : Record) : String :=
  getStr r.timestamp

/-- The chat-sequencing sort: Python `sorted` is a stable sort comparing
the string keys by code point. -/
def sortMsgs (msgs : List Record) : List Record :=
  List.insertionSort (fun a b => chLe (smsKey a).data (smsKey b).data = true) msgs

/-- The `for i in range(len(sorted_messages) - 1)` loop: one
`chat_sequence` edge per adjacent pair. -/
def adjEdges : List Record → List Edge
  | a :: b :: rest => ⟨a.id, b.id, "chat_sequence", 1⟩ :: adjEdges (b :: rest)
  | _ => []

/-- Chat edges of one session (when the sort succeeds). -/
def chatSessionEdges (msgs : List Record) : List Edge :=
  adjEdges (sortMsgs msgs)

/-- The chat-sequencing loop over the sessions.  When a session holds at
least two messages and any of them has a null timestamp, Python's
`sorted` compares `None` with a key and raises `TypeError`, aborting
`identify_relationships`; the flag records that abort, and the edge list
holds only the edges linked before it. -/
def chatFold : List (List Record) → List Edge × Bool
  | [] => ([], false)
  | msgs :: rest =>
    if 2 ≤ msgs.length && msgs.any (fun m => m.timestamp == none) then ([], true)
    else
      let p := chatFold rest
      (chatSessionEdges msgs ++ p.1, p.2)

/-- The session groups, in key insertion order. -/
def sessions (evs : List Record) : List (List Record) :=
  (sessionKeys evs).map (fun k => sessionMsgs evs k)

/-- Call-followed-by linking: every timestamped phone call against every
strictly later timestamped email or SMS within 30 minutes. -/
def callEdges (th : ℚ) (evs : List Record) : List Edge :=
  evs.flatMap
    (fun item =>
      if item.type == "phone_call" then
        match parseTsO item.timestamp with
        | some ct =>
          evs.filterMap
            (fun o =>
              if o.type == "email" || o.type == "sms" then
                match parseTsO o.timestamp with
                | some ot =>
                  if ct < ot then
                    if ((ot : ℚ) - (ct : ℚ)) / 60 ≤ 30 then
                      if th ≤ 1 - ((ot : ℚ) - (ct : ℚ)) / 60 / 30 then
                        some ⟨item.id, o.id, "call_followed_by",
                          1 - ((ot : ℚ) - (ct : ℚ)) / 60 / 30⟩
                      else none
                    else none
                  else none
                | none => none
              else none)
        | none => []
      else [])

/-- One run of `identify_relationships` over the loaded snapshot: the
edges passed to `link_related_evidence`, in program order, paired with
the chat-sequencing abort flag (when it is set the call-followed-by
phase is never reached). -/
def passAttempts (th : ℚ) (evs : List Record) : List Edge × Bool :=
  let a1 := emailAttempts th evs
  let p := chatFold (sessions evs)
  if p.2 then (a1 ++ p.1, true) else (a1 ++ p.1 ++ callEdges th evs, false)

/-- The edges a pass writes (all of them when it completes, the prefix
written before the `TypeError` when it aborts). -/
def passEdges (th : ℚ) (evs : List Record) : List Edge :=
  (passAttempts th evs).1

/-- Store-level run of `identify_relationships` with an accepting store:
edges are appended in order; the returned count exists only when the
pass completes. -/
def runPass (th : ℚ) (st : Store) : Store × Option Nat :=
  let p := passAttempts th st.records
  (⟨st.records, st.edges ++ p.1⟩, if p.2 then none else some p.1.length)

/-- Sequential edge writing against a store that rejects (raises on)
the writes selected by `rej`.  The source wraps no
`link_related_evidence` call in `try`, so the first rejected write
propagates: it and everything after it is lost, and no count is
returned. -/
def writeSeq (rej : Edge → Bool) : List Edge → List Edge × Option Nat
  | [] => ([], some 0)
  | e :: rest =>
    if rej e then ([], none)
    else
      let p := writeSeq rej rest
      (e :: p.1, p.2.map (· + 1))

/-- Store-level run of `identify_relationships` against a rejecting
store: the edges that reached the table, and the returned count (none
when the pass aborted, by rejection or by the chat `TypeError`). -/
def runPassReject (rej : Edge → Bool) (th : ℚ) (evs : List Record) :
    List Edge × Option Nat :=
  let a := passAttempts th evs
  let w := writeSeq rej a.1
  (w.1, if a.2 then none else w.2)

/-- `_calculate_relevance`: +0.5 when the docket's lower-cased
`event_type` is a non-empty substring of the candidate's text (email
body or subject, or SMS text), +0.3 likewise for the `memo`, plus up to
+0.2 decaying linearly to zero over 24 hours of absolute time
difference when both timestamps parse; the sum is capped at 1. -/
def relevance (docket ev : Record) : ℚ :=
  let dType := lowerS (getStr docket.event_type)
  let dMemo := lowerS (getStr docket.memo)
  let content : ℚ :=
    if ev.type == "email" then
      let body := lowerS (getStr ev.body)
      let subj := lowerS (getStr ev.subject)
      (if dType != "" && (containsSub dType.data body.data || containsSub dType.data subj.data)
        then 0.5 else 0) +
      (if dMemo != "" && (containsSub dMemo.data body.data || containsSub dMemo.data subj.data)
        then 0.3 else 0)
    else if ev.type == "sms" then
      let t := lowerS (getStr ev.text)
      (if dType != "" && containsSub dType.data t.data then 0.5 else 0) +
      (if dMemo != "" && containsSub dMemo.data t.data then 0.3 else 0)
    else 0
  let timeScore : ℚ :=
    match parseTsO ev.timestamp, parseTsO docket.timestamp with
    | some et, some dt =>
      if |(et : ℚ) - (dt : ℚ)| / 3600 ≤ 24 then
        0.2 * (1 - |(et : ℚ) - (dt : ℚ)| / 3600 / 24)
      else 0
    | _, _ => 0
  min 1 (content + timeScore)

/-- The `related_items` list one docket collects in
`associate_evidence_with_docket_events`: non-docket records whose parsed
timestamp lies in the inclusive window `[docket - 3 days, docket + 1
day]` and whose relevance reaches 0.6, with their scores, in evidence
order. -/
def docketCands (evs : List Record) (docket : Record) (dt : Nat) : List (Record × ℚ) :=
  (evs.filter (fun e => e.type != "docket")).filterMap
    (fun ev =>
      match parseTsO ev.timestamp with
      | some et =>
        if (dt : Int) - 259200 ≤ (et : Int) && (et : Int) ≤ (dt : Int) + 86400 then
          if (0.6 : ℚ) ≤ relevance docket ev then some (ev, relevance docket ev) else none
        else none
      | none => none)

/-- All edges `associate_evidence_with_docket_events` writes: per
timestamped docket (in docket-query order), its candidates sorted by
descending score, each linked `related_to_docket` with the score as
confidence. -/
def docketLinks (evs : List Record) : List Edge :=
  (evs.filter (fun d => d.type == "docket")).flatMap
    (fun docket =>
      match parseTsO docket.timestamp with
      | none => []
      | some dt =>
        (List.insertionSort (fun a b : Record × ℚ => b.2 ≤ a.2)
            (docketCands evs docket dt)).map
          (fun p => (⟨docket.id, p.1.id, "related_to_docket", p.2⟩ : Edge)))

/-- Store-level run of `associate_evidence_with_docket_events`: appends
the links and returns how many were created. -/
def runDocketAssociation (st : Store) : Store × Nat :=
  (⟨st.records, st.edges ++ docketLinks st.records⟩, (docketLinks st.records).length)

/-- One suggestion of `suggest_projects` (the dictionaries it returns). -/
structure Project where
  name : String
  description : String
  start_date : Option String
  end_date : Option String
  evidence_ids : List String
deriving DecidableEq, Repr

/-- The `clean_type` key of `suggest_projects`' docket grouping. -/
def cleanType (d : Record) : String :=
  lowerS (pyStripS (getStr d.event_type))

/-- The docket-group keys in dict insertion order. -/
def docketGroupKeys (dockets : List Record) : List String :=
  firstKeys [] (dockets.map cleanType)

/-- The dockets grouped under one key. -/
def docketGroup (dockets : List Record) (k : String) : List Record :=
  dockets.filter (fun d => cleanType d == k)

/-- The fixed `project_categories` of `suggest_projects`. -/
def projectCats : List (String × List String) :=
  [("motion", ["motion", "opposition", "reply"]),
   ("discovery", ["discovery", "deposition", "request", "production"]),
   ("hearing", ["hearing", "trial", "conference"]),
   ("filing", ["complaint", "answer", "petition"])]

/-- Python `str.capitalize()`. -/
def capFirst (s : String) : String :=
  match s.data with
  | [] => ""
  | c :: r => ⟨Char.toUpper c :: r.map Char.toLower⟩

/-- The sort key `_parse_timestamp(x.get('timestamp')) or datetime.min`:
unparsed timestamps sort first (`0` is strictly below every parsed
instant of the engine's range). -/
def tsSortKey (r : Record) : Nat :=
  (parseTsO r.timestamp).getD 0

/-- Ascending stable sort by parsed timestamp, as `sorted` with the key
above. -/
def sortByTs (l : List Record) : List Record :=
  List.insertionSort (fun a b => tsSortKey a ≤ tsSortKey b) l

/-- Model of `suggest_projects`: the docket-category pass then the
email-thread pass, both reading the store only. -/
def suggestProjects (evs : List Record) : List Project :=
  let dockets := evs.filter (fun r => r.type == "docket")
  let catProjects := projectCats.filterMap
    (fun cat =>
      let catDockets :=
        ((docketGroupKeys dockets).filter
            (fun key => cat.2.any (fun kw => containsSub kw.data key.data))).flatMap
          (fun key => docketGroup dockets key)
      if catDockets.isEmpty then none
      else
        let sorted := sortByTs catDockets
        some { name := capFirst cat.1 ++ " Project",
               description := "Automatically identified " ++ cat.1 ++ " activities",
               start_date := sorted.head?.bind (fun r => r.timestamp),
               end_date := sorted.getLast?.bind (fun r => r.timestamp),
               evidence_ids := sorted.map (fun r => r.id) })
  let emails := evs.filter (fun r => r.type == "email")
  let subjKeys :=
    firstKeys [] ((emails.filter (fun r => truthy r.subject)).map
      (fun r => normSubj (getStr r.subject)))
  let threadProjects := subjKeys.filterMap
    (fun ns =>
      let grp := subjGroup evs ns
      if 5 ≤ grp.length then
        let sorted := sortByTs grp
        some { name := "Email Thread: " ++ (⟨ns.data.take 30⟩ : String) ++ "...",
               description := "Automatically identified email thread with " ++
                 toString grp.length ++ " messages",
               start_date := sorted.head?.bind (fun r => r.timestamp),
               end_date := sorted.getLast?.bind (fun r => r.timestamp),
               evidence_ids := sorted.map (fun r => r.id) }
      else none)
  catProjects ++ threadProjects

/-- Store-level run of `suggest_projects`: it only queries evidence and
builds its result in memory. -/
def runSuggestProjects (st : Store) : Store × List Project :=
  (st, suggestProjects st.records)

/-- Replace an unparseable present timestamp by an absent one; records
with an absent or parseable timestamp are untouched. -/
def scrub (r : Record) : Record :=
  match r.timestamp with
  | some s => if (parseTs s).isNone then { r with timestamp := none } else r
  | none => r

/-! Helper lemmas. -/

theorem startsW_length {p s : List Char} (h : startsW p s = true) : p.length ≤ s.length := by
  induction p generalizing s with
  | nil => simp
  | cons c p ih =>
    cases s with
    | nil => simp [startsW] at h
    | cons d s =>
      simp only [startsW, Bool.and_eq_true] at h
      simpa using ih h.2

theorem pyStripL_length (l : List Char) : (pyStripL l).length ≤ l.length := by
  unfold pyStripL
  calc ((l.dropWhile isSpace).reverse.dropWhile isSpace).reverse.length
      = ((l.dropWhile isSpace).reverse.dropWhile isSpace).length := by
        rw [List.length_reverse]
    _ ≤ (l.dropWhile isSpace).reverse.length :=
        (List.dropWhile_suffix _).sublist.length_le
    _ = (l.dropWhile isSpace).length := by rw [List.length_reverse]
    _ ≤ l.length := (List.dropWhile_suffix _).sublist.length_le

theorem stripFuel_not_starts (p : List Char) (hp : p ≠ []) :
    ∀ (f : Nat) (s : List Char), s.length < f → startsW p (stripFuel p f s) = false := by
  intro f
  induction f with
  | zero => intro s h; omega
  | succ f ih =>
    intro s hs
    rw [stripFuel]
    by_cases h : startsW p s = true
    · rw [if_pos h]
      apply ih
      have h1 := startsW_length h
      have h2 : 1 ≤ p.length := List.length_pos.mpr hp
      have h3 := pyStripL_length (s.drop p.length)
      have h4 : (s.drop p.length).length = s.length - p.length := List.length_drop _ _
      omega
    · rw [if_neg h]
      exact Bool.not_eq_true _ ▸ h

theorem strip1_not_starts (p : List Char) (hp : p ≠ []) (s : List Char) :
    startsW p (strip1 p s) = false :=
  stripFuel_not_starts p hp (s.length + 1) s (Nat.lt_succ_self _)

theorem writeSeq_reject (rej : Edge → Bool) (l : List Edge)
    (h : ∃ e ∈ l, rej e = true) :
    (writeSeq rej l).2 = none ∧ (writeSeq rej l).1 = l.takeWhile (fun e => !(rej e)) := by
  induction l with
  | nil => obtain ⟨e, he, _⟩ := h; simp at he
  | cons e rest ih =>
    by_cases hr : rej e = true
    · simp [writeSeq, hr, List.takeWhile_cons]
    · have hfalse : rej e = false := Bool.not_eq_true _ ▸ hr
      obtain ⟨x, hx, hrx⟩ := h
      rcases List.mem_cons.mp hx with rfl | hx'
      · exact absurd hrx hr
      · obtain ⟨h2, h1⟩ := ih ⟨x, hx', hrx⟩
        simp [writeSeq, hfalse, List.takeWhile_cons, h1, h2]

theorem emailByMessageId_inv {evs : List Record} {k : String} {p : Record}
    (h : emailByMessageId evs k = some p) :
    p ∈ evs ∧ p.type = "email" ∧ truthy p.message_id = true ∧ getStr p.message_id = k := by
  unfold emailByMessageId at h
  have hmem := List.mem_of_find?_eq_some h
  have hpred := List.find?_some h
  rw [List.mem_reverse, List.mem_filter] at hmem
  obtain ⟨hin, hcond⟩ := hmem
  simp only [Bool.and_eq_true, beq_iff_eq] at hcond hpred
  exact ⟨hin, hcond.1, hcond.2, hpred⟩

theorem replyEdges_inv {evs : List Record} {item : Record} {e : Edge}
    (h : e ∈ replyEdges evs item) :
    ∃ p, truthy item.in_reply_to = true ∧
      emailByMessageId evs (getStr item.in_reply_to) = some p ∧
      e = ⟨p.id, item.id, "reply_to", 1⟩ := by
  unfold replyEdges at h
  split at h
  · split at h
    · next p hp => exact ⟨p, by assumption, hp, by simpa using h⟩
    · simp at h
  · simp at h

theorem refEdges_inv {evs : List Record} {item : Record} {e : Edge}
    (h : e ∈ refEdges evs item) :
    ∃ k ∈ tokens (getStr item.references), ∃ p,
      emailByMessageId evs k = some p ∧ e = ⟨p.id, item.id, "reference", 0.9⟩ := by
  unfold refEdges at h
  split at h
  · rw [List.mem_filterMap] at h
    obtain ⟨k, hk, hsome⟩ := h
    cases hp : emailByMessageId evs k with
    | none => rw [hp] at hsome; simp at hsome
    | some p =>
      rw [hp] at hsome
      injection hsome with hsome
      exact ⟨k, hk, p, hp, hsome.symm⟩
  · simp at h

theorem convEdges_inv {evs : List Record} {item : Record} {e : Edge}
    (h : e ∈ convEdges evs item) :
    ∃ o ∈ evs, (o.id != item.id) = true ∧ o.type = "email" ∧
      e = ⟨item.id, o.id, "conversation", 0.9⟩ := by
  unfold convEdges at h
  split at h
  · rw [List.mem_map] at h
    obtain ⟨o, ho, rfl⟩ := h
    rw [List.mem_filter] at ho
    obtain ⟨hin, hcond⟩ := ho
    simp only [Bool.and_eq_true, beq_iff_eq] at hcond
    exact ⟨o, hin, hcond.1.1, hcond.1.2, rfl⟩
  · simp at h

theorem subjEdges_inv {th : ℚ} {evs : List Record} {item : Record} {e : Edge}
    (h : e ∈ subjEdges th evs item) :
    ∃ o ∈ evs, o.type = "email" ∧ truthy o.subject = true ∧ (o.id != item.id) = true ∧
      ∃ d, timeDiffDays item o = some d ∧ d < 7 ∧ th ≤ max 0.5 (1 - d / 7) ∧
        e = ⟨item.id, o.id, "subject", max 0.5 (1 - d / 7)⟩ := by
  unfold subjEdges at h
  split at h
  · rw [List.mem_filterMap] at h
    obtain ⟨o, ho, hsome⟩ := h
    rw [subjGroup, List.mem_filter] at ho
    obtain ⟨hin, hcond⟩ := ho
    simp only [Bool.and_eq_true, beq_iff_eq] at hcond
    split at hsome
    · split at hsome
      · next d hd =>
        split at hsome
        · split at hsome
          · simp only [Option.some_inj] at hsome
            exact ⟨o, hin, hcond.1.1, hcond.1.2, by assumption, d, hd, by assumption,
              by assumption, hsome.symm⟩
          · simp at hsome
        · simp at hsome
      · simp at hsome
    · simp at hsome
  · simp at h

theorem emailAttempts_inv {th : ℚ} {evs : List Record} {e : Edge}
    (h : e ∈ emailAttempts th evs) :
    ∃ item ∈ evs, item.type = "email" ∧
      (e ∈ replyEdges evs item ∨ e ∈ refEdges evs item ∨ e ∈ convEdges evs item ∨
        e ∈ subjEdges th evs item) := by
  unfold emailAttempts at h
  rw [List.mem_flatMap] at h
  obtain ⟨item, hin, hcase⟩ := h
  split at hcase
  · next htype =>
    rw [beq_iff_eq] at htype
    simp only [List.mem_append] at hcase
    exact ⟨item, hin, htype, by tauto⟩
  · simp at hcase

theorem chatFold_inv {ls : List (List Record)} {e : Edge}
    (h : e ∈ (chatFold ls).1) :
    ∃ msgs ∈ ls, e ∈ chatSessionEdges msgs := by
  induction ls with
  | nil => simp [chatFold] at h
  | cons msgs rest ih =>
    rw [chatFold] at h
    split at h
    · simp at h
    · simp only [List.mem_append] at h
      rcases h with h | h
      · exact ⟨msgs, List.mem_cons_self _ _, h⟩
      · obtain ⟨m, hm, he⟩ := ih h
        exact ⟨m, List.mem_cons_of_mem _ hm, he⟩

theorem callEdges_inv {th : ℚ} {evs : List Record} {e : Edge}
    (h : e ∈ callEdges th evs) :
    ∃ item ∈ evs, item.type = "phone_call" ∧ ∃ o ∈ evs,
      (o.type = "email" ∨ o.type = "sms") ∧
      ∃ ct ot, parseTsO item.timestamp = some ct ∧ parseTsO o.timestamp = some ot ∧
        ct < ot ∧ ((ot : ℚ) - (ct : ℚ)) / 60 ≤ 30 ∧
        th ≤ 1 - ((ot : ℚ) - (ct : ℚ)) / 60 / 30 ∧
        e = ⟨item.id, o.id, "call_followed_by", 1 - ((ot : ℚ) - (ct : ℚ)) / 60 / 30⟩ := by
  unfold callEdges at h
  rw [List.mem_flatMap] at h
  obtain ⟨item, hin, hcase⟩ := h
  split at hcase
  · next htype =>
    rw [beq_iff_eq] at htype
    split at hcase
    · next ct hct =>
      rw [List.mem_filterMap] at hcase
      obtain ⟨o, ho, hsome⟩ := hcase
      split at hsome
      · next htypo =>
        simp only [Bool.or_eq_true, beq_iff_eq] at htypo
        split at hsome
        · next ot hot =>
          split at hsome
          · split at hsome
            · split at hsome
              · simp only [Option.some_inj] at hsome
                exact ⟨item, hin, htype, o, ho, htypo, ct, ot, hct, hot,
                  by assumption, by assumption, by assumption, hsome.symm⟩
              · simp at hsome
            · simp at hsome
          · simp at hsome
        · simp at hsome
      · simp at hsome
    · simp at hcase
  · simp at hcase

theorem passEdges_inv {th : ℚ} {evs : List Record} {e : Edge}
    (h : e ∈ passEdges th evs) :
    e ∈ emailAttempts th evs ∨ (∃ msgs ∈ sessions evs, e ∈ chatSessionEdges msgs) ∨
      e ∈ callEdges th evs := by
  by_cases hc : (chatFold (sessions evs)).2 = true
  · have h' : e ∈ emailAttempts th evs ++ (chatFold (sessions evs)).1 := by
      simpa only [passEdges, passAttempts, if_pos hc] using h
    rcases List.mem_append.mp h' with h'' | h''
    · exact Or.inl h''
    · exact Or.inr (Or.inl (chatFold_inv h''))
  · have h' : e ∈ emailAttempts th evs ++ (chatFold (sessions evs)).1 ++ callEdges th evs := by
      simpa only [passEdges, passAttempts, if_neg hc] using h
    rcases List.mem_append.mp h' with h'' | h''
    · rcases List.mem_append.mp h'' with h3 | h3
      · exact Or.inl h3
      · exact Or.inr (Or.inl (chatFold_inv h3))
    · exact Or.inr (Or.inr h'')

theorem mem_docketCands {evs : List Record} {docket : Record} {dt : Nat}
    {p : Record × ℚ} :
    p ∈ docketCands evs docket dt ↔
      ∃ c ∈ evs, c.type ≠ "docket" ∧
        (∃ et, parseTsO c.timestamp = some et ∧
          (dt : Int) - 259200 ≤ (et : Int) ∧ (et : Int) ≤ (dt : Int) + 86400) ∧
        (0.6 : ℚ) ≤ relevance docket c ∧ p = (c, relevance docket c) := by
  unfold docketCands
  rw [List.mem_filterMap]
  constructor
  · rintro ⟨c, hc, hsome⟩
    rw [List.mem_filter] at hc
    obtain ⟨hin, hcond⟩ := hc
    rw [bne_iff_ne] at hcond
    split at hsome
    · next et het =>
      split at hsome
      · next hw =>
        split at hsome
        · simp only [Option.some_inj] at hsome
          simp only [Bool.and_eq_true, decide_eq_true_eq] at hw
          exact ⟨c, hin, hcond, ⟨et, het, hw.1, hw.2⟩, by assumption, hsome.symm⟩
        · simp at hsome
      · simp at hsome
    · simp at hsome
  · rintro ⟨c, hin, hty, ⟨et, het, hw1, hw2⟩, hrel, rfl⟩
    refine ⟨c, List.mem_filter.mpr ⟨hin, bne_iff_ne.mpr hty⟩, ?_⟩
    have hcond : (decide ((dt : Int) - 259200 ≤ (et : Int)) &&
        decide ((et : Int) ≤ (dt : Int) + 86400)) = true := by
      simp only [Bool.and_eq_true, decide_eq_true_eq]
      exact ⟨hw1, hw2⟩
    simp only [het]
    rw [if_pos hcond, if_pos hrel]

theorem docketLinks_inv {evs : List Record} {e : Edge}
    (h : e ∈ docketLinks evs) :
    ∃ docket ∈ evs, docket.type = "docket" ∧
      ∃ dt, parseTsO docket.timestamp = some dt ∧
      ∃ c ∈ evs, c.type ≠ "docket" ∧
        (∃ et, parseTsO c.timestamp = some et ∧
          (dt : Int) - 259200 ≤ (et : Int) ∧ (et : Int) ≤ (dt : Int) + 86400) ∧
        (0.6 : ℚ) ≤ relevance docket c ∧
        e = ⟨docket.id, c.id, "related_to_docket", relevance docket c⟩ := by
  unfold docketLinks at h
  rw [List.mem_flatMap] at h
  obtain ⟨docket, hd, hcase⟩ := h
  rw [List.mem_filter] at hd
  obtain ⟨hin, hty⟩ := hd
  rw [beq_iff_eq] at hty
  split at hcase
  · simp at hcase
  · next dt hdt =>
    rw [List.mem_map] at hcase
    obtain ⟨p, hp, rfl⟩ := hcase
    rw [List.mem_insertionSort] at hp
    obtain ⟨c, hcin, hcty, hwin, hrel, rfl⟩ := mem_docketCands.mp hp
    exact ⟨docket, hin, hty, dt, hdt, c, hcin, hcty, hwin, hrel, rfl⟩

/-! Concrete records used to exercise the theorems. -/

/-- An email that names its own `message_id` in `in_reply_to`. -/
def selfReplyEmail : Record :=
  { id := "e1", type := "email", message_id := some "m1", in_reply_to := some "m1" }

def emailA : Record := { id := "A", type := "email", message_id := some "m1" }

def emailB : Record :=
  { id := "B", type := "email", message_id := some "m2", in_reply_to := some "m1" }

def emailC : Record := { id := "C", type := "email", message_id := some "m3" }

def emailD : Record :=
  { id := "D", type := "email", message_id := some "m4", in_reply_to := some "m3" }

/-- A store that rejects the write whose second endpoint is `B`. -/
def rejectsB (e : Edge) : Bool :=
  e.id2 == "B"

/-- An SMS with a parseable timestamp. -/
def smsWithTs : Record :=
  { id := "s1", type := "sms", timestamp := some "2024-06-01T10:00:00",
    chat_session := some "chat1", text := some "hi" }

/-- An SMS of the same session whose stored timestamp is null. -/
def smsNoTs : Record :=
  { id := "s2", type := "sms", chat_session := some "chat1", text := some "hello" }

/-! Claims. -/

/-- Three timestamped SMS of one session, stored out of time order. -/
def sms3a : Record :=
  { id := "t1", type := "sms", timestamp := some "2024-06-01T09:00:00",
    chat_session := some "chat2", text := some "a" }

def sms3b : Record :=
  { id := "t2", type := "sms", timestamp := some "2024-06-01T10:00:00",
    chat_session := some "chat2", text := some "b" }

def sms3c : Record :=
  { id := "t3", type := "sms", timestamp := some "2024-06-01T11:00:00",
    chat_session := some "chat2", text := some "c" }

def c6evs : List Record := [sms3b, sms3a, sms3c]

/-- Two emails sharing a normalized subject, with equal timestamps. -/
def emailS1 : Record :=
  { id := "S1", type := "email", timestamp := some "2024-06-01T09:00:00",
    message_id := some "n1", subject := some "Budget" }

def emailS2 : Record :=
  { id := "S2", type := "email", timestamp := some "2024-06-01T09:00:00",
    message_id := some "n2", subject := some "Re: Budget" }

def c8evs : List Record := [emailS1, emailS2]

/-- Two SMS of one session: one with a parseable timestamp, one whose
timestamp string does not parse. -/
def smsGa : Record :=
  { id := "ga", type := "sms", timestamp := some "2024-06-01T10:00:00",
    chat_session := some "chat3", text := some "x" }

def smsGb : Record :=
  { id := "gb", type := "sms", timestamp := some "garbage",
    chat_session := some "chat3", text := some "y" }

/-- Claim C1, counterexample: on a store holding one email whose
`in_reply_to` is its own `message_id`, a correlation pass writes a
`reply_to` edge whose two endpoints are the same record id — the claimed
no-self-loop invariant fails exactly on the input the claim singles
out. -/
theorem c1_self_loop_cex :
    ∃ e, e ∈ passEdges 0.7 [selfReplyEmail] ∧ e.id1 = e.id2 :=
  ⟨⟨"e1", "e1", "reply_to", 1⟩, by decide, rfl⟩

theorem id_inj {evs : List Record} (h : (evs.map (fun r => r.id)).Nodup)
    {a b : Record} (ha : a ∈ evs) (hb : b ∈ evs) (hid : a.id = b.id) : a = b :=
  List.inj_on_of_nodup_map h ha hb hid

theorem adjEdges_ne {l : List Record} (h : (l.map (fun r => r.id)).Nodup) :
    ∀ e ∈ adjEdges l, e.id1 ≠ e.id2 := by
  induction l with
  | nil => intro e he; simp [adjEdges] at he
  | cons a tail ih =>
    intro e he
    cases tail with
    | nil => simp [adjEdges] at he
    | cons b rest =>
      rw [adjEdges] at he
      rcases List.mem_cons.mp he with rfl | he'
      · have : a.id ∉ (b :: rest).map (fun r => r.id) := by
          rw [List.map_cons] at h
          exact (List.nodup_cons.mp h).1
        intro hcontra
        have hab : a.id = b.id := hcontra
        exact this (hab ▸ List.mem_map.mpr ⟨b, List.mem_cons_self _ _, rfl⟩)
      · exact ih (List.nodup_cons.mp (List.map_cons _ _ _ ▸ h)).2 e he'

theorem sortedSession_ids_nodup {evs : List Record} {k : String}
    (h : (evs.map (fun r => r.id)).Nodup) :
    ((sortMsgs (sessionMsgs evs k)).map (fun r => r.id)).Nodup := by
  have h1 : (sessionMsgs evs k).Sublist evs := List.filter_sublist _
  have h2 : ((sessionMsgs evs k).map (fun r => r.id)).Nodup :=
    (h1.map (fun r => r.id)).nodup h
  have hperm := List.perm_insertionSort
    (fun a b : Record => chLe (smsKey a).data (smsKey b).data = true) (sessionMsgs evs k)
  exact ((hperm.map (fun r => r.id)).nodup_iff).mpr h2

/-- Claim C1, amended: every edge a correlation pass or the docket
linker writes joins two distinct record ids, provided the stored ids
are unique and no email names its own `message_id` in `in_reply_to` or
`references` (the reply and reference linkers never compare the
resolved record with the linking item, so a self-referencing email
defeats the invariant — see the counterexample). -/
theorem c1_edges_distinct (th : ℚ) (evs : List Record)
    (hids : (evs.map (fun r => r.id)).Nodup)
    (hself : ∀ r ∈ evs, r.type = "email" → truthy r.message_id = true →
      getStr r.in_reply_to ≠ getStr r.message_id ∧
      getStr r.message_id ∉ tokens (getStr r.references)) :
    ∀ e ∈ passEdges th evs ++ docketLinks evs, e.id1 ≠ e.id2 := by
  intro e he
  rcases List.mem_append.mp he with hp | hd
  · rcases passEdges_inv hp with hemail | ⟨msgs, hm, hce⟩ | hcall
    · rcases emailAttempts_inv hemail with ⟨item, hitem, htype, h1 | h2 | h3 | h4⟩
      · rcases replyEdges_inv h1 with ⟨p, htr, hlook, rfl⟩
        obtain ⟨hpin, hptype, hptr, hpk⟩ := emailByMessageId_inv hlook
        intro hcontra
        have heq : p = item := id_inj hids hpin hitem hcontra
        subst heq
        exact (hself p hpin hptype hptr).1 (hpk.symm)
      · rcases refEdges_inv h2 with ⟨k, hk, p, hlook, rfl⟩
        obtain ⟨hpin, hptype, hptr, hpk⟩ := emailByMessageId_inv hlook
        intro hcontra
        have heq : p = item := id_inj hids hpin hitem hcontra
        subst heq
        exact (hself p hpin hptype hptr).2 (hpk ▸ hk)
      · rcases convEdges_inv h3 with ⟨o, hoin, hne, _, rfl⟩
        exact fun hcontra => (bne_iff_ne.mp hne) hcontra.symm
      · rcases subjEdges_inv h4 with ⟨o, hoin, _, _, hne, d, _, _, _, rfl⟩
        exact fun hcontra => (bne_iff_ne.mp hne) hcontra.symm
    · obtain ⟨k, _, rfl⟩ := List.mem_map.mp hm
      exact adjEdges_ne (sortedSession_ids_nodup hids) e hce
    · rcases callEdges_inv hcall with
        ⟨item, hitem, htype, o, hoin, htypo, ct, ot, _, _, _, _, _, rfl⟩
      intro hcontra
      have heq : item = o := id_inj hids hitem hoin hcontra
      rcases htypo with hto | hto <;> rw [heq, hto] at htype <;> exact absurd htype (by decide)
  · rcases docketLinks_inv hd with ⟨docket, hdin, hdty, dt, _, c, hcin, hcty, _, _, rfl⟩
    intro hcontra
    have heq : docket = c := id_inj hids hdin hcin hcontra
    exact hcty (heq ▸ hdty)

/-- Claim C1, witness: the amended invariant applied at a concrete
two-email store (one reply edge, no self reference), showing the
hypotheses are satisfiable and the produced edge has distinct ends. -/
theorem c1_edges_distinct_witness :
    ({ id1 := "A", id2 := "B", rtype := "reply_to", conf := 1 } : Edge).id1 ≠
      ({ id1 := "A", id2 := "B", rtype := "reply_to", conf := 1 } : Edge).id2 :=
  c1_edges_distinct 0.7 [emailA, emailB] (by decide) (by decide) _ (by decide)

/-- Claim C2, counterexample: with four emails producing two reply
edges, a store that rejects the first write makes the pass abort — the
second, unrejected edge is never written and no total is returned,
against the claim that the pass continues with the remaining pairs. -/
theorem c2_reject_abort_cex :
    (passAttempts 0.7 [emailA, emailB, emailC, emailD]).1.length = 2 ∧
    runPassReject rejectsB 0.7 [emailA, emailB, emailC, emailD] = ([], none) :=
  ⟨rfl, rfl⟩

/-- Claim C2, amended: a rejected edge write aborts
`identify_relationships` at that write — the edges written before it
are kept (exactly the longest rejection-free program-order run of
attempts), nothing after it is written, and no total is returned. -/
theorem c2_reject_aborts_pass (rej : Edge → Bool) (th : ℚ) (evs : List Record)
    (h : ∃ e ∈ (passAttempts th evs).1, rej e = true) :
    (runPassReject rej th evs).2 = none ∧
    (runPassReject rej th evs).1 =
      (passAttempts th evs).1.takeWhile (fun e => !(rej e)) := by
  obtain ⟨h2, h1⟩ := writeSeq_reject rej (passAttempts th evs).1 h
  refine ⟨?_, ?_⟩
  · show (if (passAttempts th evs).2 then none else (writeSeq rej (passAttempts th evs).1).2) = none
    rw [h2]; cases (passAttempts th evs).2 <;> rfl
  · exact h1

/-- Claim C2, witness: the amended behaviour at the concrete rejecting
store. -/
theorem c2_reject_aborts_pass_witness :
    (runPassReject rejectsB 0.7 [emailA, emailB, emailC, emailD]).2 = none :=
  (c2_reject_aborts_pass rejectsB 0.7 [emailA, emailB, emailC, emailD]
    ⟨⟨"A", "B", "reply_to", 1⟩, by decide, rfl⟩).1

/-- Claim C3, counterexample: `_normalize_email_subject` strips the
marker list in one fixed pass, so the interleaved subject the claim
cites, `"Re: Fwd: Re: X"`, normalizes to `"re: x"` — a string that
still starts with the `re:` marker. -/
theorem c3_normalize_marker_cex :
    normSubj "Re: Fwd: Re: X" = "re: x" ∧
    startsW "re:".data (normSubj "Re: Fwd: Re: X").data = true :=
  ⟨rfl, rfl⟩

/-- Claim C3, amended: normalization case-folds and then strips the
four markers in one fixed pass (`re:`, `fwd:`, `fw:`, `response:`, each
repeatedly with whitespace trimming); only the last marker of the pass
is guaranteed gone, so the result never starts with `response:` (while
an earlier marker may reappear, as the counterexample shows). -/
theorem c3_normalize_no_response_marker (s : String) :
    startsW "response:".data (normSubj s).data = false := by
  show startsW "response:".data (normSubjL s.data) = false
  unfold normSubjL subjMarkers
  simp only [List.foldl_cons, List.foldl_nil]
  exact strip1_not_starts "response:".data (by decide) _

/-- Claim C4, code bug: on a chat session holding one timestamped SMS
and one whose stored timestamp is null, the chat-sequencing sort
compares `None` with a string and raises `TypeError` (the abort flag),
killing the whole pass; the claim (and spec) instead call for the
heuristic to skip the record and the pass to continue. -/
theorem c4_chat_null_timestamp_aborts :
    passAttempts 0.7 [smsWithTs, smsNoTs] = ([], true) :=
  rfl

theorem chLe_total : ∀ a b : List Char, chLe a b = true ∨ chLe b a = true := by
  intro a
  induction a with
  | nil => intro b; exact Or.inl rfl
  | cons c a ih =>
    intro b
    cases b with
    | nil => exact Or.inr rfl
    | cons d b =>
      by_cases h1 : c.toNat < d.toNat
      · left; simp [chLe, h1]
      · by_cases h2 : d.toNat < c.toNat
        · right; simp [chLe, h2]
        · rcases ih b with h | h
          · left; simp [chLe, h1, h2, h]
          · right; simp [chLe, h1, h2, h]

theorem chLe_trans :
    ∀ a b c : List Char, chLe a b = true → chLe b c = true → chLe a c = true := by
  intro a
  induction a with
  | nil => intro b c _ _; rfl
  | cons x a ih =>
    intro b c hab hbc
    cases b with
    | nil => simp [chLe] at hab
    | cons y b =>
      cases c with
      | nil => simp [chLe] at hbc
      | cons z c =>
        rw [chLe] at hab hbc ⊢
        split at hab
        · next hxy =>
          split at hbc
          · next hyz => rw [if_pos (by omega)]
          · split at hbc
            · simp at hbc
            · next hyz hzy => rw [if_pos (by omega)]
        · split at hab
          · simp at hab
          · next hxy hyx =>
            split at hbc
            · next hyz => rw [if_pos (by omega)]
            · split at hbc
              · simp at hbc
              · next hyz hzy =>
                rw [if_neg (by omega), if_neg (by omega)]
                exact ih b c hab hbc

theorem adjEdges_length : ∀ l : List Record, (adjEdges l).length = l.length - 1 := by
  intro l
  induction l with
  | nil => rfl
  | cons a tail ih =>
    cases tail with
    | nil => rfl
    | cons b rest =>
      rw [adjEdges]
      have := ih
      simp only [List.length_cons] at *
      omega

theorem adjEdges_mem : ∀ {l : List Record} {e : Edge}, e ∈ adjEdges l →
    e.rtype = "chat_sequence" ∧ e.conf = 1 ∧
    ∃ i, ∃ hi : i + 1 < l.length,
      e.id1 = (l.get ⟨i, Nat.lt_of_succ_lt hi⟩).id ∧
      e.id2 = (l.get ⟨i + 1, hi⟩).id := by
  intro l
  induction l with
  | nil => intro e he; simp [adjEdges] at he
  | cons a tail ih =>
    intro e he
    cases tail with
    | nil => simp [adjEdges] at he
    | cons b rest =>
      rw [adjEdges] at he
      rcases List.mem_cons.mp he with rfl | he'
      · exact ⟨rfl, rfl, 0, by simp, rfl, rfl⟩
      · obtain ⟨h1, h2, i, hi, hid1, hid2⟩ := ih he'
        refine ⟨h1, h2, i + 1, by simpa using Nat.succ_lt_succ hi, ?_, ?_⟩
        · simpa using hid1
        · simpa using hid2

theorem flatMap_over_map {α β γ : Type} (f : α → β) (g : β → List γ) (l : List α) :
    (l.map f).flatMap g = l.flatMap (fun a => g (f a)) := by
  induction l with
  | nil => rfl
  | cons a t ih => simp only [List.map_cons, List.flatMap_cons, ih]

theorem chatFold_ok {ls : List (List Record)}
    (h : ∀ msgs ∈ ls,
      (2 ≤ msgs.length && msgs.any (fun m => m.timestamp == none)) = false) :
    chatFold ls = (ls.flatMap chatSessionEdges, false) := by
  induction ls with
  | nil => rfl
  | cons msgs rest ih =>
    have hc := h msgs (List.mem_cons_self _ _)
    rw [chatFold, if_neg (by rw [hc]; exact Bool.false_ne_true)]
    rw [ih (fun m hm => h m (List.mem_cons_of_mem _ hm))]
    simp [List.flatMap_cons]

/-- Claim C6: for an SMS chat session of `n` records (every session
member timestamped, so the sort does not abort — see C4), the pass's
chat phase contributes per session exactly `n - 1` `chat_sequence`
edges of confidence 1, each joining records adjacent in the ascending
sorted order of the session (a path, not a clique): the chat phase
completes, is the concatenation of the per-session edge blocks, and the
session's block has length `n - 1`, is built on a sorted permutation of
the session, and each of its edges joins positions `i` and `i + 1` of
that sorted order. -/
theorem c6_chat_simple_path (evs : List Record) (k : String)
    (h : ∀ r ∈ evs, r.type = "sms" → truthy r.chat_session = true →
      r.timestamp ≠ none) :
    (chatFold (sessions evs)).2 = false ∧
    (chatFold (sessions evs)).1 =
      (sessionKeys evs).flatMap (fun s => chatSessionEdges (sessionMsgs evs s)) ∧
    (chatSessionEdges (sessionMsgs evs k)).length = (sessionMsgs evs k).length - 1 ∧
    (sortMsgs (sessionMsgs evs k)).Perm (sessionMsgs evs k) ∧
    List.Sorted (fun a b => chLe (smsKey a).data (smsKey b).data = true)
      (sortMsgs (sessionMsgs evs k)) ∧
    ∀ e ∈ chatSessionEdges (sessionMsgs evs k),
      e.rtype = "chat_sequence" ∧ e.conf = 1 ∧
      ∃ i, ∃ hi : i + 1 < (sortMsgs (sessionMsgs evs k)).length,
        e.id1 = ((sortMsgs (sessionMsgs evs k)).get ⟨i, Nat.lt_of_succ_lt hi⟩).id ∧
        e.id2 = ((sortMsgs (sessionMsgs evs k)).get ⟨i + 1, hi⟩).id := by
  have hsess : ∀ msgs ∈ sessions evs,
      (2 ≤ msgs.length && msgs.any (fun m => m.timestamp == none)) = false := by
    intro msgs hm
    obtain ⟨k', _, rfl⟩ := List.mem_map.mp hm
    have hany : (sessionMsgs evs k').any (fun m => m.timestamp == none) = false := by
      rw [List.any_eq_false]
      intro m hmm
      rw [sessionMsgs, List.mem_filter] at hmm
      obtain ⟨hin, hcond⟩ := hmm
      simp only [Bool.and_eq_true, beq_iff_eq] at hcond
      have hne := h m hin hcond.1.1 hcond.1.2
      simp [hne]
    rw [hany, Bool.and_false]
  have hok := chatFold_ok hsess
  refine ⟨by rw [hok], ?_, ?_, ?_, ?_, ?_⟩
  · rw [hok]
    show (sessions evs).flatMap chatSessionEdges = _
    rw [sessions, flatMap_over_map]
  · show (adjEdges (sortMsgs (sessionMsgs evs k))).length = _
    rw [adjEdges_length]
    have hlen : (sortMsgs (sessionMsgs evs k)).length = (sessionMsgs evs k).length :=
      List.length_insertionSort _ _
    rw [hlen]
  · exact List.perm_insertionSort _ _
  · haveI : IsTotal Record (fun a b => chLe (smsKey a).data (smsKey b).data = true) :=
      ⟨fun a b => chLe_total _ _⟩
    haveI : IsTrans Record (fun a b => chLe (smsKey a).data (smsKey b).data = true) :=
      ⟨fun a b c => chLe_trans _ _ _⟩
    exact List.sorted_insertionSort _ _
  · intro e he
    exact adjEdges_mem he

/-- Claim C5: repeating a correlation pass over an otherwise unchanged
store is monotonic — the second run appends the same edge list again
(nothing from the first run is removed) and returns the same count, so
the second count is never below the first. -/
theorem c5_repeated_pass_monotone (th : ℚ) (st : Store) :
    (runPass th (runPass th st).1).1.edges =
      (runPass th st).1.edges ++ passEdges th st.records ∧
    (runPass th (runPass th st).1).2 = (runPass th st).2 := by
  constructor <;> simp [runPass, passEdges]

/-- Claim C6, witness: the session facts applied at a concrete
three-message session. -/
theorem c6_chat_simple_path_witness :
    (chatSessionEdges (sessionMsgs c6evs "chat2")).length =
      (sessionMsgs c6evs "chat2").length - 1 :=
  (c6_chat_simple_path c6evs "chat2" (by decide)).2.2.1

/-- Claim C8: every `subject` edge a pass writes joins two emails of
the snapshot whose timestamps both parse and differ by at most 7 days,
and every `call_followed_by` edge joins a phone call and a strictly
later email or SMS whose timestamps both parse and differ by at most 30
minutes; neither kind can involve a record with an absent or
unparseable timestamp. -/
theorem c8_subject_call_bounds (th : ℚ) (evs : List Record) (e : Edge)
    (he : e ∈ passEdges th evs) :
    (e.rtype = "subject" →
      ∃ a, a ∈ evs ∧ ∃ b, b ∈ evs ∧ e.id1 = a.id ∧ e.id2 = b.id ∧
        a.type = "email" ∧ b.type = "email" ∧
        ∃ d, timeDiffDays a b = some d ∧ d ≤ 7) ∧
    (e.rtype = "call_followed_by" →
      ∃ a, a ∈ evs ∧ ∃ b, b ∈ evs ∧ e.id1 = a.id ∧ e.id2 = b.id ∧
        a.type = "phone_call" ∧ (b.type = "email" ∨ b.type = "sms") ∧
        ∃ ta tb, parseTsO a.timestamp = some ta ∧ parseTsO b.timestamp = some tb ∧
          ta < tb ∧ ((tb : ℚ) - (ta : ℚ)) / 60 ≤ 30) := by
  rcases passEdges_inv he with hemail | ⟨msgs, hm, hce⟩ | hcall
  · rcases emailAttempts_inv hemail with ⟨item, hitem, htype, h1 | h2 | h3 | h4⟩
    · rcases replyEdges_inv h1 with ⟨p, _, _, rfl⟩
      exact ⟨fun hr => absurd (show ("reply_to" : String) = "subject" from hr) (by decide),
        fun hr => absurd (show ("reply_to" : String) = "call_followed_by" from hr) (by decide)⟩
    · rcases refEdges_inv h2 with ⟨k, _, p, _, rfl⟩
      exact ⟨fun hr => absurd (show ("reference" : String) = "subject" from hr) (by decide),
        fun hr => absurd (show ("reference" : String) = "call_followed_by" from hr) (by decide)⟩
    · rcases convEdges_inv h3 with ⟨o, _, _, _, rfl⟩
      exact ⟨fun hr => absurd (show ("conversation" : String) = "subject" from hr) (by decide),
        fun hr => absurd (show ("conversation" : String) = "call_followed_by" from hr) (by decide)⟩
    · rcases subjEdges_inv h4 with ⟨o, hoin, hotype, _, hne, d, hd, hlt, hth, rfl⟩
      refine ⟨fun _ => ⟨item, hitem, o, hoin, rfl, rfl, htype, hotype, d, hd, le_of_lt hlt⟩,
        fun hr => absurd (show ("subject" : String) = "call_followed_by" from hr) (by decide)⟩
  · obtain ⟨h1, _, _⟩ := adjEdges_mem hce
    exact ⟨fun hr => absurd (h1 ▸ hr) (by decide), fun hr => absurd (h1 ▸ hr) (by decide)⟩
  · rcases callEdges_inv hcall with
      ⟨item, hitem, htype, o, hoin, htypo, ct, ot, hct, hot, hlt, hdm, _, rfl⟩
    refine ⟨fun hr => absurd (show ("call_followed_by" : String) = "subject" from hr) (by decide),
      fun _ => ⟨item, hitem, o, hoin, rfl, rfl, htype, htypo, ct, ot, hct, hot,
        by exact_mod_cast hlt, hdm⟩⟩

/-- Claim C8, witness: the bounds applied to an actual subject edge of
a concrete store (two emails sharing a normalized subject at equal
timestamps, so the edge confidence is 1). -/
theorem c8_subject_call_bounds_witness :
    ∃ a, a ∈ c8evs ∧ ∃ b, b ∈ c8evs ∧
      ({ id1 := "S1", id2 := "S2", rtype := "subject", conf := 1 } : Edge).id1 = a.id ∧
      ({ id1 := "S1", id2 := "S2", rtype := "subject", conf := 1 } : Edge).id2 = b.id ∧
      a.type = "email" ∧ b.type = "email" ∧
      ∃ d, timeDiffDays a b = some d ∧ d ≤ 7 := by
  obtain ⟨n, hn⟩ : ∃ n, parseTsO emailS1.timestamp = some n := ⟨_, rfl⟩
  have hn2 : parseTsO emailS2.timestamp = some n := hn
  have hdiff : timeDiffDays emailS1 emailS2 = some 0 := by
    simp only [timeDiffDays, hn, hn2]
    norm_num
  have hconf : max (0.5 : ℚ) (1 - 0 / 7) = 1 := by norm_num
  have hmemsubj : ({ id1 := "S1", id2 := "S2", rtype := "subject", conf := 1 } : Edge) ∈
      subjEdges 0.7 c8evs emailS1 := by
    unfold subjEdges
    rw [if_pos (by decide)]
    refine List.mem_filterMap.mpr ⟨emailS2, by decide, ?_⟩
    rw [if_pos (by decide)]
    simp only [hdiff]
    rw [if_pos (by norm_num), if_pos (by norm_num), hconf]
    rfl
  have hmemail : ({ id1 := "S1", id2 := "S2", rtype := "subject", conf := 1 } : Edge) ∈
      emailAttempts 0.7 c8evs := by
    refine List.mem_flatMap.mpr ⟨emailS1, by decide, ?_⟩
    rw [if_pos (by decide)]
    exact List.mem_append.mpr (Or.inr hmemsubj)
  have hmem : ({ id1 := "S1", id2 := "S2", rtype := "subject", conf := 1 } : Edge) ∈
      passEdges 0.7 c8evs := by
    simp only [passEdges, passAttempts]
    rw [show chatFold (sessions c8evs) = ([], false) from rfl]
    rw [if_neg (by simp)]
    exact List.mem_append.mpr (Or.inl (List.mem_append.mpr (Or.inl hmemail)))
  exact (c8_subject_call_bounds 0.7 c8evs _ hmem).1 rfl


theorem relevance_le_one (d c : Record) : relevance d c ≤ 1 := by
  unfold relevance
  exact min_le_left _ _

/-- A docket event and a candidate email used to exercise the docket
linker: same instant, event type mentioned in the subject. -/
def dktH : Record :=
  { id := "d1", type := "docket", timestamp := some "2024-06-10T12:00:00",
    event_type := some "Hearing" }

def emlH : Record :=
  { id := "h1", type := "email", timestamp := some "2024-06-10T12:00:00",
    subject := some "About the hearing" }

def c7evs : List Record := [dktH, emlH]

/-- Claim C7: the docket linker links a docket `d` to a non-docket
candidate `c` (edge `related_to_docket`, confidence the relevance
score) exactly when both timestamps parse, the candidate's instant lies
in the inclusive window from 3 days before to 1 day after the docket's,
and the relevance score is at least 0.6; every such edge carries the
score (capped at 1) as confidence, and the run returns the total number
of links appended, with no per-docket cap. -/
theorem c7_docket_link_iff (evs : List Record) (es0 : List Edge) (d c : Record)
    (hids : (evs.map (fun r => r.id)).Nodup)
    (hd : d ∈ evs) (hdty : d.type = "docket") (hc : c ∈ evs) (hcty : c.type ≠ "docket") :
    (((⟨d.id, c.id, "related_to_docket", relevance d c⟩ : Edge) ∈ docketLinks evs) ↔
      (∃ dt et, parseTsO d.timestamp = some dt ∧ parseTsO c.timestamp = some et ∧
        (dt : Int) - 259200 ≤ (et : Int) ∧ (et : Int) ≤ (dt : Int) + 86400 ∧
        (0.6 : ℚ) ≤ relevance d c)) ∧
    (∀ conf, (⟨d.id, c.id, "related_to_docket", conf⟩ : Edge) ∈ docketLinks evs →
      conf = relevance d c) ∧
    relevance d c ≤ 1 ∧
    (runDocketAssociation ⟨evs, es0⟩).2 = (docketLinks evs).length ∧
    (runDocketAssociation ⟨evs, es0⟩).1.edges = es0 ++ docketLinks evs := by
  have hinv : ∀ conf, (⟨d.id, c.id, "related_to_docket", conf⟩ : Edge) ∈ docketLinks evs →
      conf = relevance d c ∧
        (∃ dt et, parseTsO d.timestamp = some dt ∧ parseTsO c.timestamp = some et ∧
          (dt : Int) - 259200 ≤ (et : Int) ∧ (et : Int) ≤ (dt : Int) + 86400 ∧
          (0.6 : ℚ) ≤ relevance d c) := by
    intro conf hmem
    obtain ⟨docket, hdin, hdty', dt, hdt, c', hcin', hcty', ⟨et, het, hw1, hw2⟩, hrel, heq⟩ :=
      docketLinks_inv hmem
    rw [Edge.mk.injEq] at heq
    obtain ⟨hid1, hid2, _, hconf⟩ := heq
    have hdd : d = docket := id_inj hids hd hdin hid1
    have hcc : c = c' := id_inj hids hc hcin' hid2
    subst hdd; subst hcc
    exact ⟨hconf, dt, et, hdt, het, hw1, hw2, hrel⟩
  refine ⟨⟨fun hmem => (hinv _ hmem).2, ?_⟩, fun conf hmem => (hinv conf hmem).1,
    relevance_le_one d c, rfl, rfl⟩
  rintro ⟨dt, et, hdt, het, hw1, hw2, hrel⟩
  unfold docketLinks
  refine List.mem_flatMap.mpr ⟨d, List.mem_filter.mpr ⟨hd, beq_iff_eq.mpr hdty⟩, ?_⟩
  simp only [hdt]
  refine List.mem_map.mpr ⟨(c, relevance d c), ?_, rfl⟩
  rw [List.mem_insertionSort]
  exact mem_docketCands.mpr ⟨c, hc, hcty, ⟨et, het, hw1, hw2⟩, hrel, rfl⟩

/-- Claim C7, witness: the characterization instantiated at a concrete
store actually produces the link (relevance 0.5 from the event-type
match plus 0.2 from the zero time difference, so 0.7 at least 0.6). -/
theorem c7_docket_link_iff_witness :
    (⟨"d1", "h1", "related_to_docket", relevance dktH emlH⟩ : Edge) ∈ docketLinks c7evs := by
  obtain ⟨n, hn⟩ : ∃ n, parseTsO dktH.timestamp = some n := ⟨_, rfl⟩
  have hn2 : parseTsO emlH.timestamp = some n := hn
  have hA : (emlH.type == "email") = true := rfl
  have hB : (lowerS (getStr dktH.event_type) != "" &&
      (containsSub (lowerS (getStr dktH.event_type)).data (lowerS (getStr emlH.body)).data ||
        containsSub (lowerS (getStr dktH.event_type)).data (lowerS (getStr emlH.subject)).data)) =
      true := by decide
  have hC : ¬((lowerS (getStr dktH.memo) != "" &&
      (containsSub (lowerS (getStr dktH.memo)).data (lowerS (getStr emlH.body)).data ||
        containsSub (lowerS (getStr dktH.memo)).data (lowerS (getStr emlH.subject)).data)) =
      true) := by decide
  have hD : |(n : ℚ) - (n : ℚ)| / 3600 ≤ 24 := by norm_num
  have hrel : (0.6 : ℚ) ≤ relevance dktH emlH := by
    simp only [relevance, hn, hn2]
    rw [if_pos hA, if_pos hB, if_neg hC, if_pos hD]
    norm_num
  exact ((c7_docket_link_iff c7evs [] dktH emlH (by decide) (by decide) rfl (by decide)
    (by decide)).1).mpr ⟨n, n, hn, hn2, by omega, by omega, hrel⟩

/-- Claim C9: `suggest_projects` performs no store writes — the store
comes back unchanged — and is a pure function of the evidence rows:
two invocations over stores holding the same records (whatever their
edge tables) return the same suggestion list, with the same
suggestions in the same order and the same members. -/
theorem c9_suggest_projects_pure (st1 st2 : Store) (h : st1.records = st2.records) :
    (runSuggestProjects st1).1 = st1 ∧
    (runSuggestProjects st1).2 = (runSuggestProjects st2).2 := by
  refine ⟨rfl, ?_⟩
  show suggestProjects st1.records = suggestProjects st2.records
  rw [h]

/-- Claim C9, witness: two stores with the same evidence but different
edge tables yield the same suggestions, and the store is untouched. -/
theorem c9_suggest_projects_pure_witness :
    (runSuggestProjects ⟨c7evs, []⟩).1 = (⟨c7evs, []⟩ : Store) ∧
    (runSuggestProjects ⟨c7evs, []⟩).2 =
      (runSuggestProjects ⟨c7evs, [⟨"x", "y", "conversation", 0.9⟩]⟩).2 :=
  c9_suggest_projects_pure _ _ rfl

/-! Scrub congruence: a record whose present timestamp fails to parse
behaves, in every `_parse_timestamp`-mediated computation, exactly like
the same record with the timestamp absent. -/

theorem scrub_eq_cases (r : Record) :
    scrub r = r ∨ scrub r = { r with timestamp := none } := by
  unfold scrub
  cases h : r.timestamp with
  | none => exact Or.inl rfl
  | some s =>
    by_cases hp : (parseTs s).isNone
    · refine Or.inr ?_
      show (if (parseTs s).isNone = true then { r with timestamp := none } else r) = _
      rw [if_pos hp]
    · refine Or.inl ?_
      show (if (parseTs s).isNone = true then { r with timestamp := none } else r) = r
      rw [if_neg hp]

theorem filter_scrub_inv (p : Record → Bool) (evs : List Record)
    (hp : ∀ r, p (scrub r) = p r) :
    List.filter p (evs.map scrub) = (List.filter p evs).map scrub := by
  rw [List.filter_map]
  rw [List.filter_congr (fun r _ => (by rw [Function.comp_apply, hp] :
    (p ∘ scrub) r = p r))]

theorem scrub_id (r : Record) : (scrub r).id = r.id := by
  rcases scrub_eq_cases r with h | h <;> simp [h]

theorem scrub_type (r : Record) : (scrub r).type = r.type := by
  rcases scrub_eq_cases r with h | h <;> simp [h]

theorem scrub_message_id (r : Record) : (scrub r).message_id = r.message_id := by
  rcases scrub_eq_cases r with h | h <;> simp [h]

theorem scrub_in_reply_to (r : Record) : (scrub r).in_reply_to = r.in_reply_to := by
  rcases scrub_eq_cases r with h | h <;> simp [h]

theorem scrub_references (r : Record) : (scrub r).references = r.references := by
  rcases scrub_eq_cases r with h | h <;> simp [h]

theorem scrub_conversation_id (r : Record) :
    (scrub r).conversation_id = r.conversation_id := by
  rcases scrub_eq_cases r with h | h <;> simp [h]

theorem scrub_subject (r : Record) : (scrub r).subject = r.subject := by
  rcases scrub_eq_cases r with h | h <;> simp [h]

theorem scrub_body (r : Record) : (scrub r).body = r.body := by
  rcases scrub_eq_cases r with h | h <;> simp [h]

theorem scrub_text (r : Record) : (scrub r).text = r.text := by
  rcases scrub_eq_cases r with h | h <;> simp [h]

theorem scrub_event_type (r : Record) : (scrub r).event_type = r.event_type := by
  rcases scrub_eq_cases r with h | h <;> simp [h]

theorem scrub_memo (r : Record) : (scrub r).memo = r.memo := by
  rcases scrub_eq_cases r with h | h <;> simp [h]

theorem scrub_parse (r : Record) :
    parseTsO (scrub r).timestamp = parseTsO r.timestamp := by
  unfold scrub
  cases h : r.timestamp with
  | none => simp only [h]
  | some s =>
    simp only [h]
    by_cases hp : (parseTs s).isNone
    · rw [if_pos hp]
      have hnone : parseTs s = none := Option.isNone_iff_eq_none.mp hp
      simp [parseTsO, hnone]
    · rw [if_neg hp]
      simp only [h]

theorem timeDiffDays_scrub (a b : Record) :
    timeDiffDays (scrub a) (scrub b) = timeDiffDays a b := by
  unfold timeDiffDays
  rw [scrub_parse, scrub_parse]

theorem relevance_scrub (d c : Record) :
    relevance (scrub d) (scrub c) = relevance d c := by
  unfold relevance
  simp only [scrub_parse, scrub_type, scrub_event_type, scrub_memo, scrub_body,
    scrub_subject, scrub_text]

theorem flatMapCongr {α β : Type} {f g : α → List β} {l : List α}
    (h : ∀ a ∈ l, f a = g a) : l.flatMap f = l.flatMap g := by
  induction l with
  | nil => rfl
  | cons a t ih =>
    simp only [List.flatMap_cons]
    rw [h a (List.mem_cons_self _ _), ih (fun x hx => h x (List.mem_cons_of_mem _ hx))]

theorem filterMapCongr {α β : Type} {f g : α → Option β} {l : List α}
    (h : ∀ a ∈ l, f a = g a) : l.filterMap f = l.filterMap g := by
  induction l with
  | nil => rfl
  | cons a t ih =>
    simp only [List.filterMap_cons]
    rw [h a (List.mem_cons_self _ _), ih (fun x hx => h x (List.mem_cons_of_mem _ hx))]

theorem emailByMessageId_scrub (evs : List Record) (k : String) :
    emailByMessageId (evs.map scrub) k = (emailByMessageId evs k).map scrub := by
  unfold emailByMessageId
  rw [filter_scrub_inv _ _ (fun r => by rw [scrub_type, scrub_message_id])]
  rw [← List.map_reverse, List.find?_map]
  have hq : (fun r => getStr r.message_id == k) ∘ scrub =
      (fun r => getStr r.message_id == k) :=
    funext fun r => by rw [Function.comp_apply, scrub_message_id]
  rw [hq]

theorem subjGroup_scrub (evs : List Record) (ns : String) :
    subjGroup (evs.map scrub) ns = (subjGroup evs ns).map scrub := by
  unfold subjGroup
  rw [filter_scrub_inv _ _ (fun r => by rw [scrub_type, scrub_subject])]

theorem replyEdges_scrub (evs : List Record) (item : Record) :
    replyEdges (evs.map scrub) (scrub item) = replyEdges evs item := by
  unfold replyEdges
  rw [scrub_in_reply_to, emailByMessageId_scrub]
  cases hp : emailByMessageId evs (getStr item.in_reply_to) <;> simp [hp, scrub_id]

theorem refEdges_scrub (evs : List Record) (item : Record) :
    refEdges (evs.map scrub) (scrub item) = refEdges evs item := by
  unfold refEdges
  rw [scrub_references]
  refine congrArg (fun x => if truthy item.references then x else []) ?_
  apply filterMapCongr
  intro k _
  rw [emailByMessageId_scrub, Option.map_map]
  cases hp : emailByMessageId evs k <;> simp [Function.comp, scrub_id]

theorem convEdges_scrub (evs : List Record) (item : Record) :
    convEdges (evs.map scrub) (scrub item) = convEdges evs item := by
  unfold convEdges
  rw [scrub_conversation_id, scrub_id]
  rw [filter_scrub_inv _ _ (fun o => by
    rw [scrub_id, scrub_type, scrub_conversation_id])]
  rw [List.map_map]
  refine congrArg (fun x => if truthy item.conversation_id then x else []) ?_
  apply List.map_congr_left
  intro o _
  simp only [Function.comp_apply, scrub_id]

theorem subjEdges_scrub (th : ℚ) (evs : List Record) (item : Record) :
    subjEdges th (evs.map scrub) (scrub item) = subjEdges th evs item := by
  unfold subjEdges
  rw [scrub_subject, subjGroup_scrub, List.filterMap_map]
  refine congrArg (fun x => if truthy item.subject then x else []) ?_
  apply filterMapCongr
  intro o _
  simp only [Function.comp_apply, scrub_id, timeDiffDays_scrub]

theorem emailAttempts_scrub (th : ℚ) (evs : List Record) :
    emailAttempts th (evs.map scrub) = emailAttempts th evs := by
  unfold emailAttempts
  rw [flatMap_over_map]
  apply flatMapCongr
  intro item _
  rw [scrub_type, replyEdges_scrub, refEdges_scrub, convEdges_scrub, subjEdges_scrub]

theorem callEdges_scrub (th : ℚ) (evs : List Record) :
    callEdges th (evs.map scrub) = callEdges th evs := by
  unfold callEdges
  rw [flatMap_over_map]
  apply flatMapCongr
  intro item _
  simp only [scrub_type, scrub_id, scrub_parse, List.filterMap_map, Function.comp_def,
    scrub_parse]

theorem mapIteIte {α β : Type} (f : α → β) (c1 c2 : Prop) [Decidable c1] [Decidable c2]
    (x : α) :
    (if c1 then (if c2 then some (f x) else none) else none) =
      Option.map f (if c1 then (if c2 then some x else none) else none) := by
  split
  · split <;> rfl
  · rfl

theorem docketCands_scrub (evs : List Record) (docket : Record) (dt : Nat) :
    docketCands (evs.map scrub) (scrub docket) dt =
      (docketCands evs docket dt).map (fun p => (scrub p.1, p.2)) := by
  unfold docketCands
  rw [filter_scrub_inv _ _ (fun r => by rw [scrub_type])]
  rw [List.filterMap_map, List.map_filterMap]
  apply filterMapCongr
  intro ev _
  simp only [Function.comp_apply, scrub_parse, relevance_scrub]
  cases hp : parseTsO ev.timestamp with
  | none => rfl
  | some et =>
    exact mapIteIte (fun p : Record × ℚ => (scrub p.1, p.2)) _ _
      (ev, relevance docket ev)

theorem docketLinks_scrub (evs : List Record) :
    docketLinks (evs.map scrub) = docketLinks evs := by
  unfold docketLinks
  rw [filter_scrub_inv _ _ (fun r => by rw [scrub_type])]
  rw [flatMap_over_map]
  apply flatMapCongr
  intro docket _
  rw [scrub_parse]
  cases hdt : parseTsO docket.timestamp with
  | none => rfl
  | some dt =>
    show List.map (fun p : Record × ℚ =>
        (⟨(scrub docket).id, p.1.id, "related_to_docket", p.2⟩ : Edge))
        (List.insertionSort (fun a b : Record × ℚ => b.2 ≤ a.2)
          (docketCands (evs.map scrub) (scrub docket) dt)) =
      List.map (fun p : Record × ℚ =>
        (⟨docket.id, p.1.id, "related_to_docket", p.2⟩ : Edge))
        (List.insertionSort (fun a b : Record × ℚ => b.2 ≤ a.2)
          (docketCands evs docket dt))
    rw [scrub_id, docketCands_scrub]
    have hsort :
        ((docketCands evs docket dt).insertionSort
            (fun a b : Record × ℚ => b.2 ≤ a.2)).map
            (fun p : Record × ℚ => (scrub p.1, p.2)) =
          ((docketCands evs docket dt).map
              (fun p : Record × ℚ => (scrub p.1, p.2))).insertionSort
            (fun a b : Record × ℚ => b.2 ≤ a.2) :=
      List.map_insertionSort (fun a b : Record × ℚ => b.2 ≤ a.2)
        (fun a b : Record × ℚ => b.2 ≤ a.2) (fun p : Record × ℚ => (scrub p.1, p.2))
        (docketCands evs docket dt) (fun a _ b _ => Iff.rfl)
    rw [← hsort, List.map_map]
    apply List.map_congr_left
    intro p _
    simp only [Function.comp_apply, scrub_id]

/-- Claim C10, counterexample: SMS chat-sequencing — a
timestamp-dependent heuristic — does not treat an unparseable timestamp
string like an absent one.  On a session holding one timestamped SMS
and one whose timestamp is the unparseable string `"garbage"`, the sort
keeps the malformed record as a raw string key and the pass links it
with a `chat_sequence` edge; replacing that unparseable timestamp by an
absent one (`scrub`) instead aborts the whole pass with a `TypeError`
and links nothing.  The record is neither excluded nor handled like an
absent-timestamp record, refuting the claim's quantification over
every timestamp-dependent computation. -/
theorem c10_chat_garbage_cex :
    parseTs "garbage" = none ∧
    passAttempts 0.7 [smsGa, smsGb] =
      ([⟨"ga", "gb", "chat_sequence", 1⟩], false) ∧
    passAttempts 0.7 ([smsGa, smsGb].map scrub) = ([], true) :=
  ⟨rfl, rfl, rfl⟩

/-- Claim C10, amended: a record whose stored timestamp string fails to
parse is treated exactly like a record with an absent timestamp by the
computations that read time only through `_parse_timestamp` — the email
heuristics, the call-followed-by heuristic and the docket linker:
`_parse_timestamp` returns `None` rather than raising, and replacing
every unparseable timestamp by an absent one (`scrub`) leaves those
outputs unchanged, so there the record is merely excluded, never a pass
failure.  SMS chat-sequencing is the exception: it sorts the raw
timestamp strings, so it keeps and links an unparseable-timestamp
record while an absent timestamp aborts the pass (see the
counterexample). -/
theorem c10_unparseable_like_absent (th : ℚ) (evs : List Record) :
    emailAttempts th (evs.map scrub) = emailAttempts th evs ∧
    callEdges th (evs.map scrub) = callEdges th evs ∧
    docketLinks (evs.map scrub) = docketLinks evs ∧
    ∀ s, parseTs s = none → parseTsO (some s) = parseTsO none := by
  refine ⟨emailAttempts_scrub th evs, callEdges_scrub th evs, docketLinks_scrub evs, ?_⟩
  intro s h
  simp [parseTsO, h]
